import Mathlib

/-!
Verification of the client-side tabular view-model of the product-catalog
application: a snapshot of records, a single-column sort directive, a
free-text plus category filter state, and a pagination cursor, from which
the visible page of rows is derived (filter, then sort, then paginate).

The record fields and the column configuration — global search over the
five accessor columns, exact-match category filtering (`filterFn:
'equals'`), the empty select value mapping to an absent predicate
(`setFilterValue(e.target.value || undefined)`), the initial page size of
5 — are taken from the `ProductTable` component source.  The
sorting/filtering/pagination engine itself lives in the external table
library and is not part of this repository's sources, so it is modelled
from the specification: filter → sort → paginate, `pageCount = max(1,
ceil(totalFilteredCount / pageSize))`, silent clamping of the page index,
stable single-column sorting, and page reset on filter changes.
-/

/-- A catalog record as displayed by the product table; the five data
columns are name, category, price, stock and sku.  The numeric fields are
modelled as naturals, and their decimal rendering `Nat.repr` stands for
the host language's conversion of a number to a string. -/
structure Product where
  id : String
  name : String
  category : String
  price : Nat
  stock : Nat
  sku : String
deriving DecidableEq

/-- Initial-segment test: `leadsList n h` is true iff `n` is an initial
segment of `h`. -/
def leadsList : List Char → List Char → Bool
  | [], _ => true
  | _ :: _, [] => false
  | a :: n, b :: h => a == b && leadsList n h

/-- Substring test on character lists: `hasSeq n h` is true iff `n`
occurs contiguously inside `h`. -/
def hasSeq (n : List Char) : List Char → Bool
  | [] => leadsList n []
  | b :: h => leadsList n (b :: h) || hasSeq n h

/-- Character-wise lower casing of a string, the model of the host
language's `toLowerCase` on the catalog's character data. -/
def lowerStr (s : String) : String :=
  ⟨s.data.map Char.toLower⟩

/-- Case-insensitive containment: the query occurs inside the haystack
after lower-casing both sides (the library's `includesString` match). -/
def containsCI (hay q : String) : Bool :=
  hasSeq (lowerStr q).data (lowerStr hay).data

/-- Modelled from the spec: the designated fields of the free-text global
filter.  They are the five accessor columns declared in `ProductTable`
(name, category, price, stock, sku); the engine stringifies each cell
value, so the numeric fields take part through their digit strings. -/
def globalFieldStrings (r : Product) : List String :=
  [r.name, r.category, Nat.repr r.price, Nat.repr r.stock, r.sku]

/-- Modelled from the spec: the free-text predicate keeps a record iff
the query is empty or some designated field contains it
case-insensitively. -/
def textKeep (q : String) (r : Product) : Bool :=
  q == "" || (globalFieldStrings r).any (fun s => containsCI s q)

/-- The exact-match category predicate (`filterFn: 'equals'` on the
category column); an absent predicate keeps every row. -/
def catKeep : Option String → Product → Bool
  | none, _ => true
  | some v, r => r.category == v

/-- The filter state: a free-text query and an optional exact-match
category predicate. -/
structure FilterState where
  query : String
  category : Option String
deriving DecidableEq

/-- Modelled from the spec: the combined filter predicate, the logical
AND of the text predicate and every set category predicate. -/
def filterKeep (fs : FilterState) (r : Product) : Bool :=
  textKeep fs.query r && catKeep fs.category r

/-- Modelled from the spec: step 1 of the pipeline — keep the records
passing the combined filter, in their supplied order. -/
def filterStep (fs : FilterState) (l : List Product) : List Product :=
  l.filter (filterKeep fs)

/-- The sortable columns: the three header sort buttons of
`ProductTable` (name, price, stock). -/
inductive SortField
  | name
  | price
  | stock
deriving DecidableEq

/-- A single-column sort directive: the field and whether the direction
is descending. -/
structure SortDirective where
  field : SortField
  desc : Bool
deriving DecidableEq

/-- The ascending comparison on the sorted column: text compares by code
points, numbers numerically. -/
def fieldLe : SortField → Product → Product → Bool
  | .name, a, b => decide (a.name ≤ b.name)
  | .price, a, b => decide (a.price ≤ b.price)
  | .stock, a, b => decide (a.stock ≤ b.stock)

/-- Equality of the two records' values in the given field. -/
def fieldEq : SortField → Product → Product → Bool
  | .name, a, b => a.name == b.name
  | .price, a, b => a.price == b.price
  | .stock, a, b => a.stock == b.stock

/-- The comparator a directive induces.  Descending swaps the arguments
of the ascending comparison (not a list reversal), so records with equal
keys keep their supplied relative order in both directions. -/
def dirLe (d : SortDirective) (a b : Product) : Bool :=
  if d.desc then fieldLe d.field b a else fieldLe d.field a b

/-- Modelled from the spec: step 2 of the pipeline — a stable sort of the
filtered rows by the active directive; with no directive the filtered
order is preserved unchanged. -/
def sortStep : Option SortDirective → List Product → List Product
  | none, l => l
  | some d, l => l.mergeSort (dirLe d)

/-- Modelled from the spec: `pageCount = max(1, ceil(total / pageSize))`;
on naturals the ceiling of `n / size` is `(n + size - 1) / size`. -/
def pageCount (n size : Nat) : Nat :=
  max 1 ((n + size - 1) / size)

/-- Modelled from the spec: step 3 of the pipeline — the visible rows are
the slice `[pageIndex*pageSize, pageIndex*pageSize + pageSize)` of the
sorted filtered sequence. -/
def pageSlice (l : List Product) (pageIndex pageSize : Nat) : List Product :=
  (l.drop (pageIndex * pageSize)).take pageSize

/-- Modelled from the spec: the view-model state — the records snapshot,
the sort directive, the filter state and the pagination cursor. -/
structure TabularViewModel where
  records : List Product
  sort : Option SortDirective
  filters : FilterState
  pageIndex : Nat
  pageSize : Nat
deriving DecidableEq

/-- The filtered rows of the current state. -/
def filteredRows (vm : TabularViewModel) : List Product :=
  filterStep vm.filters vm.records

/-- The sorted filtered rows of the current state. -/
def sortedRows (vm : TabularViewModel) : List Product :=
  sortStep vm.sort (filteredRows vm)

/-- The page count the current state reports. -/
def pageCountOf (vm : TabularViewModel) : Nat :=
  pageCount (filteredRows vm).length vm.pageSize

/-- The visible page of rows of the current state. -/
def visibleRows (vm : TabularViewModel) : List Product :=
  pageSlice (sortedRows vm) vm.pageIndex vm.pageSize

/-- Modelled from the spec: silent clamping of a requested page index
into the valid range `[0, pageCount - 1]`. -/
def clampIndex (i : Int) (pc : Nat) : Nat :=
  (max 0 (min i ((pc : Int) - 1))).toNat

/-- The only error condition originating in the core: a non-positive
page size is an invalid argument. -/
inductive TvmError
  | invalidArgument
deriving DecidableEq

/-- The UI mapping of the category select: the "All Categories" option
carries the empty string, and `setFilterValue(e.target.value ||
undefined)` turns it into an absent predicate rather than a stored
sentinel. -/
def selectCategoryValue (v : String) : Option String :=
  if v = "" then none else some v

/-- Modelled from the spec: setting a new field starts ascending unless a
direction is given explicitly; setting the same field again toggles the
direction; clearing removes the directive. -/
def setSortState (f : Option SortField) (dir : Option Bool) :
    Option SortDirective → Option SortDirective
  | sd =>
    match f with
    | none => none
    | some fld =>
      match sd with
      | some d =>
        if d.field = fld then some ⟨fld, dir.getD (!d.desc)⟩
        else some ⟨fld, dir.getD false⟩
      | none => some ⟨fld, dir.getD false⟩

/-- The operations of the view model. -/
inductive Op
  | setRecords (rs : List Product)
  | setSort (f : Option SortField) (dir : Option Bool)
  | setTextFilter (q : String)
  | setCategoryFilter (v : Option String)
  | setPageIndex (i : Int)
  | setPageSize (s : Int)

/-- Modelled from the spec: every operation is a total function, and the
only defensive check rejects a non-positive page size with an
InvalidArgument error.  Filter changes reset the page index to 0;
replacing the records or the page size re-clamps it. -/
def applyOp : Op → TabularViewModel → Except TvmError TabularViewModel
  | .setRecords rs, vm =>
    let vm' := { vm with records := rs }
    .ok { vm' with pageIndex := clampIndex (vm.pageIndex : Int) (pageCountOf vm') }
  | .setSort f dir, vm =>
    .ok { vm with sort := setSortState f dir vm.sort }
  | .setTextFilter q, vm =>
    .ok { vm with filters := { vm.filters with query := q }, pageIndex := 0 }
  | .setCategoryFilter v, vm =>
    .ok { vm with filters := { vm.filters with category := v }, pageIndex := 0 }
  | .setPageIndex i, vm =>
    .ok { vm with pageIndex := clampIndex i (pageCountOf vm) }
  | .setPageSize s, vm =>
    if s ≤ 0 then .error .invalidArgument
    else
      let vm' := { vm with pageSize := s.toNat }
      .ok { vm' with pageIndex := clampIndex (vm.pageIndex : Int) (pageCountOf vm') }

/-! ### Substring facts -/

theorem leadsList_iff : ∀ (n h : List Char), leadsList n h = true ↔ ∃ t, n ++ t = h
  | [], h => by simp [leadsList]
  | _ :: _, [] => by simp [leadsList]
  | a :: n, b :: h => by
    simp only [leadsList, Bool.and_eq_true, beq_iff_eq, leadsList_iff n h, List.cons_append,
      List.cons.injEq]
    constructor
    · rintro ⟨rfl, t, rfl⟩
      exact ⟨t, rfl, rfl⟩
    · rintro ⟨t, rfl, rfl⟩
      exact ⟨rfl, t, rfl⟩

theorem hasSeq_iff (n : List Char) :
    ∀ (h : List Char), hasSeq n h = true ↔ ∃ s t, s ++ n ++ t = h
  | [] => by
    simp [hasSeq, leadsList_iff, List.append_eq_nil]
  | b :: h => by
    simp only [hasSeq, Bool.or_eq_true, leadsList_iff, hasSeq_iff n h]
    constructor
    · rintro (⟨t, ht⟩ | ⟨s, t, rfl⟩)
      · exact ⟨[], t, by simpa using ht⟩
      · exact ⟨b :: s, t, rfl⟩
    · rintro ⟨s, t, hst⟩
      cases s with
      | nil =>
        exact Or.inl ⟨t, by simpa using hst⟩
      | cons s0 s' =>
        obtain ⟨rfl, rfl⟩ := by simpa using hst
        exact Or.inr ⟨s', t, by simp⟩

theorem hasSeq_trans {a b c : List Char} (h1 : hasSeq a b = true)
    (h2 : hasSeq b c = true) : hasSeq a c = true := by
  rw [hasSeq_iff] at h1 h2 ⊢
  obtain ⟨s1, t1, rfl⟩ := h1
  obtain ⟨s2, t2, rfl⟩ := h2
  exact ⟨s2 ++ s1, t1 ++ t2, by simp [List.append_assoc]⟩

theorem hasSeq_map (f : Char → Char) {n h : List Char} (hn : hasSeq n h = true) :
    hasSeq (n.map f) (h.map f) = true := by
  rw [hasSeq_iff] at hn ⊢
  obtain ⟨s, t, rfl⟩ := hn
  exact ⟨s.map f, t.map f, by simp⟩

theorem hasSeq_self (l : List Char) : hasSeq l l = true :=
  (hasSeq_iff l l).mpr ⟨[], [], by simp⟩

/-! ### Pagination arithmetic -/

theorem length_sortStep (sd : Option SortDirective) (l : List Product) :
    (sortStep sd l).length = l.length := by
  cases sd with
  | none => rfl
  | some d => exact List.length_mergeSort l

theorem le_pageCount_mul {size : Nat} (n : Nat) (h : 0 < size) :
    n ≤ pageCount n size * size := by
  have hdm := Nat.div_add_mod (n + size - 1) size
  have hlt := Nat.mod_lt (n + size - 1) h
  have hle : n ≤ ((n + size - 1) / size) * size := by
    rw [Nat.mul_comm] at hdm
    generalize ((n + size - 1) / size) * size = a at hdm ⊢
    omega
  calc n ≤ ((n + size - 1) / size) * size := hle
    _ ≤ pageCount n size * size :=
      Nat.mul_le_mul_right size (le_max_right 1 _)

theorem pageCount_pred_mul_lt {size : Nat} (n : Nat) (h : 0 < size) (hn : n ≠ 0) :
    (pageCount n size - 1) * size < n := by
  have hq : 1 ≤ (n + size - 1) / size := by
    rw [Nat.one_le_div_iff h]
    omega
  have hmax : pageCount n size = (n + size - 1) / size :=
    Nat.max_eq_right hq
  have hdm := Nat.div_add_mod (n + size - 1) size
  have hlt := Nat.mod_lt (n + size - 1) h
  have hsub : ((n + size - 1) / size - 1) * size = ((n + size - 1) / size) * size - size :=
    Nat.sub_one_mul _ _
  have hcm : ((n + size - 1) / size) * size = size * ((n + size - 1) / size) :=
    Nat.mul_comm _ _
  rw [hmax, hsub, hcm]
  generalize size * ((n + size - 1) / size) = a at hdm ⊢
  omega

theorem flatten_pages (size : Nat) :
    ∀ (m : Nat) (l : List Product), l.length ≤ m * size →
      ((List.range m).map (fun i => pageSlice l i size)).flatten = l := by
  intro m
  induction m with
  | zero =>
    intro l h
    simp only [Nat.zero_mul, Nat.le_zero] at h
    simp [List.length_eq_zero.mp h]
  | succ m ih =>
    intro l h
    rw [List.range_succ_eq_map, List.map_cons, List.map_map, List.flatten_cons]
    have hfirst : pageSlice l 0 size = l.take size := by
      simp [pageSlice]
    have hstep : ∀ i ∈ List.range m,
        ((fun i => pageSlice l i size) ∘ Nat.succ) i = pageSlice (l.drop size) i size := by
      intro i _
      simp only [Function.comp, pageSlice, Nat.succ_mul, List.drop_drop]
      rw [Nat.add_comm (i * size) size, ← List.drop_drop]
    rw [hfirst, List.map_congr_left hstep, ih (l.drop size) ?_, List.take_append_drop]
    have : (l.drop size).length = l.length - size := List.length_drop size l
    rw [this]
    have hms : (m + 1) * size = m * size + size := by
      rw [Nat.succ_mul]
    omega

/-! ### Comparator facts -/

theorem fieldLe_total (f : SortField) (a b : Product) :
    (fieldLe f a b || fieldLe f b a) = true := by
  cases f
  · rcases le_total a.name b.name with h | h <;> simp [fieldLe, h]
  · rcases le_total a.price b.price with h | h <;> simp [fieldLe, h]
  · rcases le_total a.stock b.stock with h | h <;> simp [fieldLe, h]

theorem fieldLe_trans (f : SortField) (a b c : Product)
    (h1 : fieldLe f a b = true) (h2 : fieldLe f b c = true) :
    fieldLe f a c = true := by
  cases f <;>
    (simp only [fieldLe, decide_eq_true_eq] at h1 h2 ⊢; exact le_trans h1 h2)

theorem dirLe_total (sd : SortDirective) (a b : Product) :
    (dirLe sd a b || dirLe sd b a) = true := by
  obtain ⟨f, desc⟩ := sd
  have h := fieldLe_total f a b
  rw [Bool.or_eq_true] at h
  cases desc <;> simp only [dirLe] <;> simp
  · exact h
  · exact h.symm

theorem dirLe_trans (sd : SortDirective) (a b c : Product)
    (h1 : dirLe sd a b = true) (h2 : dirLe sd b c = true) :
    dirLe sd a c = true := by
  obtain ⟨f, desc⟩ := sd
  cases desc <;> simp only [dirLe] at h1 h2 ⊢ <;> simp at h1 h2 ⊢
  · exact fieldLe_trans f a b c h1 h2
  · exact fieldLe_trans f c b a h2 h1

theorem dirLe_of_fieldEq (sd : SortDirective) (a b : Product)
    (h : fieldEq sd.field a b = true) : dirLe sd a b = true := by
  obtain ⟨f, desc⟩ := sd
  cases desc <;> cases f <;> simp_all [dirLe, fieldLe, fieldEq]

/-! ### Filter facts -/

theorem catKeep_iff (co : Option String) (r : Product) :
    catKeep co r = true ↔ ∀ c, co = some c → r.category = c := by
  cases co <;> simp [catKeep]

theorem textKeep_of_mem {s : String} (r : Product) (hs : s ∈ globalFieldStrings r) :
    textKeep s r = true := by
  rw [textKeep, Bool.or_eq_true, List.any_eq_true]
  exact Or.inr ⟨s, hs, hasSeq_self _⟩

theorem textKeep_mono {q1 q2 : String} (hsub : ∃ u v, u ++ q1.data ++ v = q2.data)
    (r : Product) (h : textKeep q2 r = true) : textKeep q1 r = true := by
  by_cases hq : q1 = ""
  · subst hq
    simp [textKeep]
  · rw [textKeep, Bool.or_eq_true, List.any_eq_true]
    rw [textKeep, Bool.or_eq_true, List.any_eq_true] at h
    rcases h with h0 | ⟨s, hs, hcont⟩
    · rw [beq_iff_eq] at h0
      obtain ⟨u, v, huv⟩ := hsub
      rw [h0] at huv
      exfalso
      apply hq
      have h2 : u ++ q1.data ++ v = ([] : List Char) := huv
      simp only [List.append_eq_nil] at h2
      have hnil : q1.data = [] := h2.1.2
      cases q1 with
      | mk d =>
        have hd : d = [] := hnil
        rw [hd]
    · refine Or.inr ⟨s, hs, ?_⟩
      rw [containsCI] at hcont ⊢
      have hlow : hasSeq (lowerStr q1).data (lowerStr q2).data = true := by
        rw [hasSeq_iff]
        obtain ⟨u, v, huv⟩ := hsub
        refine ⟨u.map Char.toLower, v.map Char.toLower, ?_⟩
        show u.map Char.toLower ++ q1.data.map Char.toLower ++ v.map Char.toLower
            = q2.data.map Char.toLower
        rw [← huv]
        simp [List.map_append]
      exact hasSeq_trans hlow hcont

theorem length_filter_mono {p q : Product → Bool}
    (himp : ∀ r, p r = true → q r = true) :
    ∀ l : List Product, (l.filter p).length ≤ (l.filter q).length := by
  intro l
  induction l with
  | nil => simp
  | cons a l ih =>
    by_cases hp : p a = true
    · rw [List.filter_cons_of_pos hp, List.filter_cons_of_pos (himp a hp)]
      simpa using ih
    · rw [List.filter_cons_of_neg (by simpa using hp)]
      cases hq : q a
      · rw [List.filter_cons_of_neg (by simp [hq])]
        exact ih
      · rw [List.filter_cons_of_pos (by simp [hq])]
        exact Nat.le_succ_of_le ih

/-! ### Example data (the concrete scenario of the specification) -/

def pDesk : Product := ⟨"1", "Desk", "Furniture", 120, 3, "SKU1"⟩

def pLamp : Product := ⟨"2", "Lamp", "Lighting", 40, 30, "SKU2"⟩

def pChair : Product := ⟨"3", "Chair", "Furniture", 85, 0, "SKU3"⟩

def exProducts : List Product := [pDesk, pLamp, pChair]

def vmEx : TabularViewModel := ⟨exProducts, none, ⟨"", none⟩, 0, 5⟩

def vmEmptyFiltered : TabularViewModel := ⟨exProducts, none, ⟨"zzz", none⟩, 0, 5⟩

/-! ### Claim theorems -/

/-- C1: the visible-page pipeline runs filter, then sort, then paginate,
each step on the output of the previous; the rows of page i are the slice
`[i*pageSize, i*pageSize + pageSize)` of the sorted filtered sequence,
and the concatenation of the rows of all pages from index 0 through
pageCount - 1 equals the full sorted filtered set, with no row missing
and no row duplicated. -/
theorem pagination_covers_sorted_filtered (vm : TabularViewModel)
    (h : 0 < vm.pageSize) :
    ((List.range (pageCountOf vm)).map
        (fun i => visibleRows { vm with pageIndex := i })).flatten = sortedRows vm
    ∧ ∀ i : Nat, visibleRows { vm with pageIndex := i }
        = ((sortStep vm.sort (filterStep vm.filters vm.records)).drop
            (i * vm.pageSize)).take vm.pageSize := by
  constructor
  · have hmap : (fun i => visibleRows { vm with pageIndex := i })
        = fun i => pageSlice (sortedRows vm) i vm.pageSize := rfl
    rw [hmap]
    apply flatten_pages
    rw [show (sortedRows vm).length = (filteredRows vm).length from
      length_sortStep _ _]
    exact le_pageCount_mul _ h
  · intro i
    rfl

/-- C1 witness: the property instantiated at the concrete catalog of the
specification's scenario. -/
theorem pagination_covers_sorted_filtered_witness :
    0 < vmEx.pageSize
    ∧ (((List.range (pageCountOf vmEx)).map
          (fun i => visibleRows { vmEx with pageIndex := i })).flatten = sortedRows vmEx
        ∧ ∀ i : Nat, visibleRows { vmEx with pageIndex := i }
            = ((sortStep vmEx.sort (filterStep vmEx.filters vmEx.records)).drop
                (i * vmEx.pageSize)).take vmEx.pageSize) :=
  ⟨by decide, pagination_covers_sorted_filtered vmEx (by decide)⟩

/-- C2: when the filtered result is empty the reported page count is 1,
not 0; in general the page count is `max(1, ceil(total / pageSize))` —
witnessed by the defining formula together with the two inequalities that
characterise the ceiling. -/
theorem pageCount_max_one_ceil (vm : TabularViewModel) (h : 0 < vm.pageSize) :
    pageCountOf vm
        = max 1 (((filteredRows vm).length + vm.pageSize - 1) / vm.pageSize)
    ∧ (filteredRows vm = [] → pageCountOf vm = 1)
    ∧ (filteredRows vm).length ≤ pageCountOf vm * vm.pageSize
    ∧ (filteredRows vm ≠ [] →
        (pageCountOf vm - 1) * vm.pageSize < (filteredRows vm).length) := by
  refine ⟨rfl, ?_, le_pageCount_mul _ h, ?_⟩
  · intro he
    show pageCount (filteredRows vm).length vm.pageSize = 1
    rw [he]
    show max 1 ((List.length [] + vm.pageSize - 1) / vm.pageSize) = 1
    simp only [List.length_nil, Nat.zero_add]
    have hz : (vm.pageSize - 1) / vm.pageSize = 0 := Nat.div_eq_of_lt (by omega)
    rw [hz]
    simp
  · intro hne
    apply pageCount_pred_mul_lt _ h
    intro hlen
    exact hne (List.length_eq_zero.mp hlen)

/-- C2 witness: filtering the concrete catalog to zero rows still reports
one page. -/
theorem pageCount_max_one_ceil_witness :
    0 < vmEmptyFiltered.pageSize
    ∧ (pageCountOf vmEmptyFiltered
          = max 1 (((filteredRows vmEmptyFiltered).length + vmEmptyFiltered.pageSize - 1)
              / vmEmptyFiltered.pageSize)
        ∧ (filteredRows vmEmptyFiltered = [] → pageCountOf vmEmptyFiltered = 1)
        ∧ (filteredRows vmEmptyFiltered).length
            ≤ pageCountOf vmEmptyFiltered * vmEmptyFiltered.pageSize
        ∧ (filteredRows vmEmptyFiltered ≠ [] →
            (pageCountOf vmEmptyFiltered - 1) * vmEmptyFiltered.pageSize
              < (filteredRows vmEmptyFiltered).length)) :=
  ⟨by decide, pageCount_max_one_ceil vmEmptyFiltered (by decide)⟩

/-- C3: a record is kept by the filter step iff it occurs in the
collection, the free-text query is empty or some designated field
contains it as a case-insensitive substring, and every set category
predicate matches its category exactly; the predicates combine by
logical AND. -/
theorem filterStep_mem_iff (fs : FilterState) (l : List Product) (r : Product) :
    r ∈ filterStep fs l ↔
      r ∈ l
      ∧ (fs.query = "" ∨ ∃ s ∈ globalFieldStrings r,
          ∃ u v, u ++ (lowerStr fs.query).data ++ v = (lowerStr s).data)
      ∧ (∀ c, fs.category = some c → r.category = c) := by
  rw [filterStep, List.mem_filter, filterKeep, Bool.and_eq_true, catKeep_iff]
  simp only [textKeep, Bool.or_eq_true, beq_iff_eq, List.any_eq_true,
    containsCI, hasSeq_iff]

/-- C4: every operation is total over well-typed inputs, and the only
error condition in the core is the InvalidArgument raised for a
non-positive page size. -/
theorem applyOp_error_iff (op : Op) (vm : TabularViewModel) (e : TvmError) :
    applyOp op vm = .error e
      ↔ ∃ s, op = .setPageSize s ∧ s ≤ 0 ∧ e = .invalidArgument := by
  cases e
  cases op with
  | setRecords rs => simp [applyOp]
  | setSort f dir => simp [applyOp]
  | setTextFilter q => simp [applyOp]
  | setCategoryFilter v => simp [applyOp]
  | setPageIndex i => simp [applyOp]
  | setPageSize s => by_cases h : s ≤ 0 <;> simp [applyOp, h]

/-- C5: requesting any integer page index, including negative and huge
values, succeeds and silently clamps the stored index into the range
`[0, pageCount - 1]`. -/
theorem setPageIndex_clamps (vm : TabularViewModel) (i : Int) :
    ∃ vm', applyOp (.setPageIndex i) vm = .ok vm'
      ∧ vm'.pageIndex ≤ pageCountOf vm' - 1
      ∧ 1 ≤ pageCountOf vm' := by
  have h1 : 1 ≤ pageCountOf vm := le_max_left 1 _
  refine ⟨_, rfl, ?_, h1⟩
  show clampIndex i (pageCountOf vm) ≤ pageCountOf vm - 1
  unfold clampIndex
  omega

/-- C6: any change to the text filter or to a category filter resets the
page index to page 0, for every prior page index. -/
theorem filter_change_resets_page (vm : TabularViewModel) (q : String)
    (v : Option String) :
    (∃ vm', applyOp (.setTextFilter q) vm = .ok vm' ∧ vm'.pageIndex = 0)
    ∧ ∃ vm', applyOp (.setCategoryFilter v) vm = .ok vm' ∧ vm'.pageIndex = 0 :=
  ⟨⟨_, rfl, rfl⟩, ⟨_, rfl, rfl⟩⟩

/-- C7: sorting is stable — two records with equal values in the sorted
field retain their relative order — and with no directive the derived
rows preserve exactly the supplied order. -/
theorem sort_stable (l : List Product) (sd : SortDirective) (a b : Product)
    (hk : fieldEq sd.field a b = true) (hab : List.Sublist [a, b] l) :
    sortStep none l = l ∧ List.Sublist [a, b] (sortStep (some sd) l) := by
  refine ⟨rfl, ?_⟩
  show List.Sublist [a, b] (l.mergeSort (dirLe sd))
  exact List.pair_sublist_mergeSort (fun x y z => dirLe_trans sd x y z)
    (fun x y => dirLe_total sd x y) (dirLe_of_fieldEq sd a b hk) hab

/-- C7 witness: two records with equal price keep their order under the
ascending price sort. -/
theorem sort_stable_witness :
    fieldEq (SortDirective.mk SortField.price false).field pDesk pChair = true
      ∨ (fieldEq (SortDirective.mk SortField.stock false).field
            (Product.mk "4" "Alpha" "Misc" 10 7 "SKU4")
            (Product.mk "5" "Beta" "Misc" 12 7 "SKU5") = true
        ∧ List.Sublist
            [Product.mk "4" "Alpha" "Misc" 10 7 "SKU4",
              Product.mk "5" "Beta" "Misc" 12 7 "SKU5"]
            [Product.mk "4" "Alpha" "Misc" 10 7 "SKU4",
              Product.mk "5" "Beta" "Misc" 12 7 "SKU5"]
        ∧ (sortStep none
              [Product.mk "4" "Alpha" "Misc" 10 7 "SKU4",
                Product.mk "5" "Beta" "Misc" 12 7 "SKU5"]
            = [Product.mk "4" "Alpha" "Misc" 10 7 "SKU4",
                Product.mk "5" "Beta" "Misc" 12 7 "SKU5"]
          ∧ List.Sublist
              [Product.mk "4" "Alpha" "Misc" 10 7 "SKU4",
                Product.mk "5" "Beta" "Misc" 12 7 "SKU5"]
              (sortStep (some (SortDirective.mk SortField.stock false))
                [Product.mk "4" "Alpha" "Misc" 10 7 "SKU4",
                  Product.mk "5" "Beta" "Misc" 12 7 "SKU5"]))) :=
  Or.inr ⟨by decide, by decide,
    sort_stable _ (SortDirective.mk SortField.stock false) _ _ (by decide) (by decide)⟩

/-- C8: text filtering is monotone — any filtered set is a subset of the
unfiltered collection, and tightening the query (a query containing the
old one as a substring) never increases the result count. -/
theorem text_filter_monotone (fs : FilterState) (q2 : String) (l : List Product)
    (hsub : ∃ u v, u ++ fs.query.data ++ v = q2.data) :
    (∀ r ∈ filterStep fs l, r ∈ l)
    ∧ (filterStep { fs with query := q2 } l).length ≤ (filterStep fs l).length := by
  constructor
  · intro r hr
    exact (List.mem_filter.mp hr).1
  · apply length_filter_mono
    intro r hkeep
    rw [filterKeep, Bool.and_eq_true] at hkeep ⊢
    exact ⟨textKeep_mono hsub r hkeep.1, hkeep.2⟩

/-- C8 witness: tightening the query "la" to "lamp" on the concrete
catalog does not increase the result count. -/
theorem text_filter_monotone_witness :
    (∃ u v, u ++ (FilterState.mk "la" none).query.data ++ v = ("lamp" : String).data)
    ∧ ((∀ r ∈ filterStep (FilterState.mk "la" none) exProducts, r ∈ exProducts)
        ∧ (filterStep { FilterState.mk "la" none with query := "lamp" } exProducts).length
            ≤ (filterStep (FilterState.mk "la" none) exProducts).length) :=
  ⟨⟨[], ['m', 'p'], by decide⟩,
    text_filter_monotone (FilterState.mk "la" none) "lamp" exProducts
      ⟨[], ['m', 'p'], by decide⟩⟩

/-- C9: the "match all categories" choice is the predicate being absent,
not a sentinel: the empty select value maps to an absent predicate, and
the resulting filtered set is exactly the one with no category predicate
ever set. -/
theorem all_categories_is_absent (vm : TabularViewModel) :
    ∃ vm', applyOp (.setCategoryFilter (selectCategoryValue "")) vm = .ok vm'
      ∧ vm'.filters.category = none
      ∧ filteredRows vm'
          = filterStep { vm.filters with category := none } vm.records := by
  have hsel : selectCategoryValue "" = none := by simp [selectCategoryValue]
  refine ⟨_, rfl, ?_, ?_⟩
  · show selectCategoryValue "" = none
    exact hsel
  · show filterStep { vm.filters with category := selectCategoryValue "" } vm.records
        = filterStep { vm.filters with category := none } vm.records
    rw [hsel]

/-- C10: the free-text query is matched against every data column — name,
category, price, stock and sku — the numeric fields through their digit
strings: a query equal to any field's rendered value matches the record,
in particular a query equal to the digits of the record's price. -/
theorem global_filter_covers_all_columns (r : Product) :
    textKeep r.name r = true
    ∧ textKeep r.category r = true
    ∧ textKeep (Nat.repr r.price) r = true
    ∧ textKeep (Nat.repr r.stock) r = true
    ∧ textKeep r.sku r = true :=
  ⟨textKeep_of_mem r (by simp [globalFieldStrings]),
    textKeep_of_mem r (by simp [globalFieldStrings]),
    textKeep_of_mem r (by simp [globalFieldStrings]),
    textKeep_of_mem r (by simp [globalFieldStrings]),
    textKeep_of_mem r (by simp [globalFieldStrings])⟩
